import Mathlib

/-!
Verification development for the batch download manager in
src/download_files_from_url_list.py.

The Python program is embedded shallowly:

* Pure string manipulations (file-name derivation, path joining, the
  regular-expression substitutions of lines 141, 183 and 187) are embedded
  as Lean functions over the character lists of the strings involved.
* The mutable Downloader object is a state record (DlState) threaded
  explicitly.  Class attributes links, completed_urls, temp_files and the
  __started/__abort flags are fields; the durable URL file, the local file
  system, the sleeps performed and the network requests issued are
  additional observable fields of the state (the last three are histories
  recording the side effects the code performs).
* Collaborators from outside the repository (urllib.parse.urlparse,
  urllib.parse.unquote, requests.get, the clocks) enter as parameters: an
  Env record of parsing functions and a TaskParams record holding the
  per-invocation clock readings, the HTTP response and the value of the
  shared abort flag at every observation point.
* Python exceptions are modelled by returning the state reached at the
  raise point together with an error message (ExecResult.exc), mirroring
  the fact that in-place mutations survive an exception.
-/

/-- Characters matched by the regex class backslash-s in Python. -/
def pySpace (c : Char) : Bool :=
  c == ' ' || c == '\t' || c == '\n' || c == '\r' || c == '\x0b' || c == '\x0c'

/-- Splitter used to embed re.split over a character class: cuts the list at
every separator character, producing the (possibly empty) fields between
separators. -/
def splitOnSepAux (p : Char → Bool) : List Char → List Char → List (List Char)
  | [], cur => [cur.reverse]
  | c :: rest, cur =>
    if p c then cur.reverse :: splitOnSepAux p rest []
    else splitOnSepAux p rest (c :: cur)

/-- Line 141: the list comprehension
for u in re.split over CR/LF runs of body, keeping only truthy u.
Splitting at every single CR or LF and then dropping empty fields yields
exactly the nonempty fields between maximal CR/LF runs, which is what the
regex split (followed by the truthiness filter) produces. -/
def splitUrls (body : String) : List String :=
  ((splitOnSepAux (fun c => c == '\r' || c == '\n') body.data []).map
    String.mk).filter (fun u => u ≠ "")

/-- Lines 140-143: the dedupe-preserving-order loop of __fetch_url_list
(append each url not already present). -/
def dedupKeepFirst (l : List String) : List String :=
  l.foldl (fun acc u => if u ∈ acc then acc else acc ++ [u]) []

/-- Lines 135-145: Downloader.__fetch_url_list, from the contents of the URL
file to the deduplicated in-memory list self.links. -/
def fetchUrlList (body : String) : List String :=
  dedupKeepFirst (splitUrls body)

/-- Line 183: re.sub of a greedy dot-star-slash with the empty string, i.e.
everything after the last slash (the whole string when no slash occurs). -/
def lastSegment (p : String) : String :=
  String.mk ((p.data.reverse.takeWhile (fun c => c != '/')).reverse)

/-- Line 187: the regex substitution removing a leading whitespace-run plus
slash (anchored at the start) and a trailing slash plus nonempty
slash-free segment (anchored at the end).  The start-anchored alternative
can match at most once, the end-anchored one at most once, and they are
scanned left to right, so the substitution is the composition of the two
strips. -/
def originalPath (p : String) : String :=
  let l := p.data
  let afterLead :=
    match l.dropWhile pySpace with
    | '/' :: tl => tl
    | _ => l
  let r := afterLead.reverse
  let seg := r.takeWhile (fun c => c != '/')
  match seg, r.drop seg.length with
  | _ :: _, '/' :: restr => String.mk restr.reverse
  | _, _ => String.mk afterLead

/-- os.path.join for the shapes the program uses: an absolute second
component wins, otherwise the components are joined with a single
separator (none added after an empty or slash-terminated first
component). -/
def pathJoin (a b : String) : String :=
  if b.data.head? = some '/' then b
  else if a.data = [] ∨ a.data.getLast? = some '/' then a ++ b
  else a ++ ("/") ++ b

/-- Directory portion of a path: everything up to and including the last
slash.  Used to express adjacency of two paths (same containing
directory). -/
def dirnameOf (p : String) : String :=
  String.mk ((p.data.reverse.dropWhile (fun c => c != '/')).reverse)

/-- Result of urllib.parse.urlparse as far as the program consumes it:
the netloc and path components. -/
structure Url where
  netloc : String
  path : String

/-- External parsing collaborators (urllib.parse.urlparse and
urllib.parse.unquote are standard-library capabilities, not part of the
repository). -/
structure Env where
  urlparse : String → Url
  unquote : String → String

/-- Process-wide configuration: DESTINATION_PATH, PRESERVE_PATHS, the
Downloader class attribute thread_limit and the constructor argument
download_delay (a float in the source; only its truthiness is ever
branched on). -/
structure Config where
  destinationPath : String
  preservePaths : Bool
  threadLimit : Nat
  downloadDelay : Rat

/-- The response object of requests.get as far as the program consumes it:
the optional content-length header, the chunk stream of iter_content, and
an optional read error raised by the stream after the listed chunks. -/
structure Resp where
  contentLength : Option Nat
  chunks : List (List Nat)
  chunkErr : Option String

/-- Per-invocation oracle values: ts stands for the strftime string of
line 193 combined with dt.microsecond (the embedded timestamp), tick for
the time_ns read of line 183, resp for the outcome of requests.get, and
abortSig i for the value of the shared __abort flag at the i-th
observation point of this invocation (0 at function entry on line 173,
then 1, 2, ... at the successive chunk boundaries of lines 217/223). -/
structure TaskParams where
  ts : String
  tick : Nat
  resp : Except String Resp
  abortSig : Nat → Bool

/-- The mutable state of a run: the Downloader attributes links,
completed_urls and temp_files, the __started flag, the set of file paths
existing on disk (fs), the current contents of the durable URL file, and
three histories of performed effects: every temp path ever registered
(tempsCreated), every sleep performed, and every network request issued. -/
structure DlState where
  links : List String
  completedUrls : List String
  tempFiles : List String
  tempsCreated : List String
  started : Bool
  fs : List String
  urlFileContents : String
  sleeps : List Rat
  fetches : List String
deriving DecidableEq

/-- Which syntactic exit a download invocation took: the early return of
line 174 (notStarted), the skip return of line 197 (skipped), the abort
returns of lines 219/225 (aborted), or the fall-through after the rename
(published). -/
inductive Outcome
  | notStarted
  | skipped
  | aborted
  | published
deriving DecidableEq

/-- A Python call either returns (ret) or raises (exc); either way the
in-place mutations performed so far remain visible, so the state is paired
with the result. -/
inductive ExecResult
  | ret (o : Outcome)
  | exc (e : String)
deriving DecidableEq

/-- Lines 164-167: Downloader.__complete_url.  The url is appended to
completed_urls first; then del self.links[self.links.index(url)] removes
the first occurrence, raising ValueError when the url is absent (the
append is not rolled back). -/
def completeUrl (st : DlState) (url : String) : DlState × Option String :=
  let st1 := { st with completedUrls := st.completedUrls ++ [url] }
  if url ∈ st1.links then
    ({ st1 with links := st1.links.eraseIdx (st1.links.indexOf url) }, none)
  else (st1, some ("ValueError: url not in links"))

/-- Lines 147-150: Downloader.remove_temp_file deletes every occurrence of
the path from temp_files (a while-membership loop). -/
def removeTempFile (st : DlState) (file : String) : DlState :=
  { st with tempFiles := st.tempFiles.filter (fun f => f != file) }

/-- Lines 160-162: Downloader.update_url_file rewrites the durable file
with the current links joined by newlines (w+ mode truncates, and join of
an empty list is the empty string, so no trailing record remains). -/
def updateUrlFile (st : DlState) : DlState :=
  { st with urlFileContents := String.intercalate ("\n") st.links }

/-- Line 183 continued: the percent-decoded last path segment of the URL
(the value whose truthiness decides between the derived name and the
synthesized fallback). -/
def derivedSegment (env : Env) (url : String) : String :=
  env.unquote (lastSegment (env.urlparse url).path)

/-- Line 183: file_name derivation; the or-fallback synthesizes
unnamed underscore netloc underscore time_ns when the decoded last segment
is empty. -/
def deriveFileName (env : Env) (tick : Nat) (url : String) : String :=
  if derivedSegment env url ≠ "" then derivedSegment env url
  else ("unnamed_") ++ (env.urlparse url).netloc ++ ("_") ++ toString tick

/-- Line 187 context: url_parts.path or slash (empty path is falsy). -/
def orSlash (p : String) : String := if p = "" then ("/") else p

/-- Lines 185-188: download_path is DESTINATION_PATH, extended with the
decoded intermediate path segments when PRESERVE_PATHS is set. -/
def downloadPathOf (cfg : Config) (env : Env) (url : String) : String :=
  if cfg.preservePaths then
    pathJoin cfg.destinationPath (env.unquote (originalPath (orSlash (env.urlparse url).path)))
  else cfg.destinationPath

/-- Line 190: final_file_path for a url whose file_name argument was not
supplied. -/
def finalPathOf (cfg : Config) (env : Env) (tick : Nat) (url : String) : String :=
  pathJoin (downloadPathOf cfg env url) (deriveFileName env tick url)

/-- Line 193: the temp file name pattern, final name dot timestamp dot
tmp. -/
def tempNameOf (fileName ts : String) : String :=
  fileName ++ (".") ++ ts ++ (".tmp")

/-- Line 193: the temp file path; note it is rooted at DESTINATION_PATH,
not at download_path. -/
def tempPathOf (cfg : Config) (env : Env) (tick : Nat) (ts : String) (url : String) : String :=
  pathJoin cfg.destinationPath (tempNameOf (deriveFileName env tick url) ts)

/-- Lines 216-227: both streaming loops check the shared abort flag once
per chunk before writing it.  Returns the index of the first observation
point (counted from checkIdx) at which the flag was seen set, or none when
the whole stream was consumed.  The two loop variants of the source differ
only in chunk size, progress rendering and the skipping of empty-chunk
writes, none of which the state model tracks. -/
def observeAbort (abortSig : Nat → Bool) : Nat → List (List Nat) → Option Nat
  | _, [] => none
  | k, _ :: rest => if abortSig k then some k else observeAbort abortSig (k + 1) rest

/-- Lines 199-204: pause between downloads; the first invocation that
reaches this point only sets __started, later ones sleep when
download_delay is truthy.  No branch consults thread_limit. -/
def delayStage (cfg : Config) (st : DlState) : DlState :=
  if !st.started then { st with started := true }
  else if cfg.downloadDelay ≠ 0 then { st with sleeps := st.sleeps ++ [cfg.downloadDelay] }
  else st

/-- Lines 231-237: ensure the destination directory exists (directory
creation is not tracked by the file-path model), rename the temp file to
the final path, drop the temp path from temp_files, and mark the url
complete. -/
def finishPublish (st : DlState) (url tempFile finalFilePath : String) : DlState × ExecResult :=
  let st1 := { st with fs := (st.fs.erase tempFile) ++ [finalFilePath] }
  let st2 := removeTempFile st1 tempFile
  match completeUrl st2 url with
  | (st3, some e) => (st3, ExecResult.exc e)
  | (st3, none) => (st3, ExecResult.ret Outcome.published)

/-- Lines 199-237: the part of download_with_progress_bar after the
already-exists check: delay bookkeeping, registration of the temp path
(line 207, before the request), the network request, opening the temp file
(which creates it), the streaming loop with its per-chunk abort checks,
and the publish steps.  A requests.get failure or a stream read failure
raises out of the function with all mutations so far kept. -/
def transferStage (cfg : Config) (p : TaskParams) (st : DlState)
    (url tempFile finalFilePath : String) : DlState × ExecResult :=
  let st1 := delayStage cfg st
  let st2 := { st1 with tempFiles := st1.tempFiles ++ [tempFile],
                        tempsCreated := st1.tempsCreated ++ [tempFile] }
  let st3 := { st2 with fetches := st2.fetches ++ [url] }
  match p.resp with
  | Except.error e => (st3, ExecResult.exc e)
  | Except.ok r =>
    let st4 := { st3 with fs := st3.fs ++ [tempFile] }
    match r.contentLength with
    | none => finishPublish st4 url tempFile finalFilePath
    | some _ =>
      match observeAbort p.abortSig 1 r.chunks with
      | some _ => (st4, ExecResult.ret Outcome.aborted)
      | none =>
        match r.chunkErr with
        | some e => (st4, ExecResult.exc e)
        | none => finishPublish st4 url tempFile finalFilePath

/-- Lines 172-237: Downloader.download_with_progress_bar.  Checks the
abort flag at entry, derives file_name (recomputed when the argument is
missing or empty), computes final and temp paths, takes the skip branch
when the final path exists, and otherwise runs the transfer. -/
def downloadWithProgressBar (cfg : Config) (env : Env) (p : TaskParams)
    (st : DlState) (url : String) (fileNameArg : Option String) : DlState × ExecResult :=
  if p.abortSig 0 then (st, ExecResult.ret Outcome.notStarted)
  else
    let fileName :=
      match fileNameArg with
      | some f => if f = "" then deriveFileName env p.tick url else f
      | none => deriveFileName env p.tick url
    let finalFilePath := pathJoin (downloadPathOf cfg env url) fileName
    let tempFile := pathJoin cfg.destinationPath (tempNameOf fileName p.ts)
    if finalFilePath ∈ st.fs then
      match completeUrl st url with
      | (st1, some e) => (st1, ExecResult.exc e)
      | (st1, none) => (st1, ExecResult.ret Outcome.skipped)
    else
      transferStage cfg p st url tempFile finalFilePath

/-- Lines 130-133: a fresh Downloader over a URL file with the given
contents, in a process whose class attributes are at their initial values
and whose disk holds the paths fs0; the durable file itself still holds
the raw body until the first persist. -/
def initState (body : String) (fs0 : List String) : DlState :=
  { links := fetchUrlList body
    completedUrls := []
    tempFiles := []
    tempsCreated := []
    started := false
    fs := fs0
    urlFileContents := body
    sleeps := []
    fetches := [] }

/-- Lines 250-256: the completion loop of main with thread_limit 1: the
tasks submitted for the snapshot of links run in order; after each
returning task the queue file is persisted, while a raised exception
propagates (only KeyboardInterrupt is caught) and ends the loop with no
further persists.  Already-queued tasks of the real pool still execute
during executor shutdown after the exception, but their completions are
never persisted; the loop itself is what this function models. -/
def mainLoopSeq (cfg : Config) (env : Env) (params : Nat → TaskParams) :
    List String → Nat → DlState → DlState × Option String
  | [], _, st => (st, none)
  | u :: rest, i, st =>
    match downloadWithProgressBar cfg env (params i) st u none with
    | (st1, ExecResult.exc e) => (st1, some e)
    | (st1, ExecResult.ret _) => mainLoopSeq cfg env params rest (i + 1) (updateUrlFile st1)

/-- One full single-worker run of main over the snapshot of the pending
links. -/
def runOnce (cfg : Config) (env : Env) (params : Nat → TaskParams)
    (st : DlState) : DlState × Option String :=
  mainLoopSeq cfg env params st.links 0 st

/-- Scheduler-level events as they interleave in a run: a successful
completion of a url (the __complete_url call performed by a finishing
task, whether it published or skipped) and a persist of the queue file
(the update_url_file call of line 255). -/
inductive SchedEvent
  | complete (url : String)
  | persist
deriving DecidableEq

/-- Effect of one scheduler-level event on the shared state. -/
def applyEvent (st : DlState) : SchedEvent → DlState × Option String
  | SchedEvent.complete u => completeUrl st u
  | SchedEvent.persist => (updateUrlFile st, none)

/-- A run prefix: scheduler-level events applied in order, stopping at the
first raised error. -/
def runEvents : List SchedEvent → DlState → DlState × Option String
  | [], st => (st, none)
  | e :: rest, st =>
    match applyEvent st e with
    | (st1, some err) => (st1, some err)
    | (st1, none) => runEvents rest st1

/-- The urls completed in an event list, in completion order. -/
def completesOf : List SchedEvent → List String
  | [] => []
  | SchedEvent.complete u :: rest => u :: completesOf rest
  | SchedEvent.persist :: rest => completesOf rest

/-- The pending identifiers: the original list minus the completed ones,
in original order. -/
def pendingOf (L C : List String) : List String :=
  L.filter (fun x => decide (x ∉ C))

/-- Concrete stand-in for urllib.parse.urlparse covering the URLs used in
the concrete scenarios below. -/
def urlparse0 (u : String) : Url :=
  if u = "http://h/" then { netloc := ("h"), path := ("/") }
  else if u = "http://h/sub/a.txt" then { netloc := ("h"), path := ("/sub/a.txt") }
  else if u = "http://h/a.txt" then { netloc := ("h"), path := ("/a.txt") }
  else if u = "http://h/b.txt" then { netloc := ("h"), path := ("/b.txt") }
  else { netloc := (""), path := ("") }

/-- Concrete environment: urlparse0 with the identity percent-decoder. -/
def env0 : Env := { urlparse := urlparse0, unquote := id }

/-- Default concrete configuration. -/
def cfg0 : Config :=
  { destinationPath := ("/out"), preservePaths := false, threadLimit := 1, downloadDelay := 0 }

/-- A response that succeeds with no content-length header. -/
def respOneShot : Resp := { contentLength := none, chunks := [], chunkErr := none }

/-- A response with a content-length and two chunks. -/
def respChunks : Resp := { contentLength := some 2, chunks := [[7], [8]], chunkErr := none }

/-- Task oracle: never aborted, successful one-shot responses. -/
def paramsOk : Nat → TaskParams := fun i =>
  { ts := ("T") ++ toString i, tick := i + 1, resp := Except.ok respOneShot,
    abortSig := fun _ => false }

/-- Configuration with path preservation switched on. -/
def cfgPreserve : Config :=
  { destinationPath := ("/out"), preservePaths := true, threadLimit := 1, downloadDelay := 0 }

/-- Configuration with two workers and a one-second inter-download delay. -/
def cfgTwoThreads : Config :=
  { destinationPath := ("/out"), preservePaths := false, threadLimit := 2, downloadDelay := 1 }

/-- Task oracle whose first task fails at requests.get with a transfer
error and whose later tasks would succeed. -/
def paramsFirstFails : Nat → TaskParams := fun i =>
  if i = 0 then
    { ts := ("T0"), tick := 1, resp := Except.error ("TransferError"),
      abortSig := fun _ => false }
  else
    { ts := ("T") ++ toString i, tick := i + 1, resp := Except.ok respOneShot,
      abortSig := fun _ => false }

/-- Task parameters for a transfer that is aborted at the first chunk
boundary: the flag is clear at entry and set from the first in-stream
observation point on. -/
def paramsAbortMid : TaskParams :=
  { ts := ("T0"), tick := 1, resp := Except.ok respChunks,
    abortSig := fun i => decide (1 ≤ i) }

/-- Task oracle of a later run: same behaviour as paramsOk but with later
time_ns readings, as a real second run of the process would see. -/
def paramsOkLater : Nat → TaskParams := fun i => { paramsOk i with tick := i + 2 }

/-- Concrete state in which some earlier invocation has already begun a
download (the __started flag is set). -/
def stStarted : DlState := { initState ("http://h/a.txt") [] with started := true }

/-- Concrete state with a duplicate-containing links list, for exercising
first-occurrence removal. -/
def stBAB : DlState := { initState ("") [] with links := [("B"), ("A"), ("B")] }

theorem eraseIdx_indexOf_eq_erase (l : List String) (u : String) :
    l.eraseIdx (l.indexOf u) = l.erase u := by
  induction l with
  | nil => rfl
  | cons a tl ih =>
    by_cases h : a = u
    · subst h
      rw [List.indexOf_cons_self]
      simp [List.erase_cons]
    · rw [List.indexOf_cons_ne tl h]
      simp [List.erase_cons, h, ih]

theorem completeUrl_of_mem (st : DlState) (u : String) (h : u ∈ st.links) :
    completeUrl st u
      = ({ st with completedUrls := st.completedUrls ++ [u],
                   links := st.links.erase u }, none) := by
  simp [completeUrl, h, eraseIdx_indexOf_eq_erase]

theorem completeUrl_of_not_mem (st : DlState) (u : String) (h : u ∉ st.links) :
    completeUrl st u
      = ({ st with completedUrls := st.completedUrls ++ [u] },
          some ("ValueError: url not in links")) := by
  simp [completeUrl, h]

theorem pendingOf_nil (L : List String) : pendingOf L [] = L := by
  simp [pendingOf]

theorem mem_pendingOf (L C : List String) (x : String) :
    x ∈ pendingOf L C ↔ x ∈ L ∧ x ∉ C := by
  simp [pendingOf]

theorem pending_erase (L : List String) (hL : L.Nodup) (C : List String) (u : String) :
    (pendingOf L C).erase u = pendingOf L (C ++ [u]) := by
  have hnd : (pendingOf L C).Nodup := hL.filter _
  rw [hnd.erase_eq_filter, pendingOf, pendingOf, List.filter_filter]
  apply List.filter_congr
  intro x _
  by_cases h1 : x = u <;> by_cases h2 : x ∈ C <;> simp [h1, h2]

theorem runEvents_append (a b : List SchedEvent) (st : DlState)
    (h : (runEvents a st).2 = none) :
    runEvents (a ++ b) st = runEvents b (runEvents a st).1 := by
  induction a generalizing st with
  | nil => simp [runEvents]
  | cons e rest ih =>
    simp only [List.cons_append, runEvents] at h ⊢
    cases happ : applyEvent st e with
    | mk st1 err =>
      cases err with
      | none => simp only [happ] at h ⊢; exact ih st1 h
      | some msg => simp [happ] at h

theorem runEvents_spec (L : List String) (hL : L.Nodup) (evs : List SchedEvent) :
    ∀ (C : List String) (st : DlState),
      st.links = pendingOf L C →
      (∀ u ∈ completesOf evs, u ∈ L ∧ u ∉ C) →
      (completesOf evs).Nodup →
      (runEvents evs st).2 = none ∧
      (runEvents evs st).1.links = pendingOf L (C ++ completesOf evs) := by
  induction evs with
  | nil =>
    intro C st hst _ _
    simp [runEvents, completesOf, hst]
  | cons e rest ih =>
    intro C st hst hmem hnd
    cases e with
    | persist =>
      have hst1 : (updateUrlFile st).links = pendingOf L C := by
        simp [updateUrlFile, hst]
      have := ih C (updateUrlFile st) hst1
        (by simpa [completesOf] using hmem) (by simpa [completesOf] using hnd)
      simpa [runEvents, applyEvent, completesOf] using this
    | complete u =>
      have humem : u ∈ L ∧ u ∉ C := hmem u (by simp [completesOf])
      have hulinks : u ∈ st.links := by
        rw [hst, mem_pendingOf]; exact humem
      have hcomp := completeUrl_of_mem st u hulinks
      have hst1 : (completeUrl st u).1.links = pendingOf L (C ++ [u]) := by
        rw [hcomp]
        show st.links.erase u = pendingOf L (C ++ [u])
        rw [hst]
        exact pending_erase L hL C u
      have hndpair : u ∉ completesOf rest ∧ (completesOf rest).Nodup := by
        simpa [completesOf] using hnd
      have hnd1 : (completesOf rest).Nodup := hndpair.2
      have hunotrest : u ∉ completesOf rest := hndpair.1
      have hmem1 : ∀ v ∈ completesOf rest, v ∈ L ∧ v ∉ C ++ [u] := by
        intro v hv
        have hvLC := hmem v (by simp [completesOf, hv])
        refine ⟨hvLC.1, ?_⟩
        simp only [List.mem_append, List.mem_singleton]
        rintro (hvC | hvu)
        · exact hvLC.2 hvC
        · exact hunotrest (hvu ▸ hv)
      have ihh := ih (C ++ [u]) (completeUrl st u).1 hst1 hmem1 hnd1
      have hrun : runEvents (SchedEvent.complete u :: rest) st
          = runEvents rest (completeUrl st u).1 := by
        simp only [runEvents, applyEvent, hcomp]
      constructor
      · rw [hrun]
        exact ihh.1
      · rw [hrun, ihh.2, List.append_assoc]
        simp [completesOf, List.singleton_append]

theorem dedupFold_spec (l : List String) :
    ∀ acc : List String, acc.Nodup →
      ∃ s, l.foldl (fun a u => if u ∈ a then a else a ++ [u]) acc = acc ++ s ∧
        s.Sublist l ∧ (acc ++ s).Nodup ∧ (∀ x ∈ s, x ∉ acc) ∧
        (∀ x ∈ l, x ∈ acc ∨ x ∈ s) := by
  induction l with
  | nil =>
    intro acc hacc
    exact ⟨[], by simp, List.Sublist.refl _, by simpa using hacc, by simp, by simp⟩
  | cons u tl ih =>
    intro acc hacc
    by_cases hu : u ∈ acc
    · obtain ⟨s, hfold, hsub, hnd, hdisj, hcover⟩ := ih acc hacc
      refine ⟨s, ?_, hsub.cons u, hnd, hdisj, ?_⟩
      · simpa [List.foldl_cons, hu] using hfold
      · intro x hx
        rcases List.mem_cons.mp hx with hxu | hxtl
        · exact Or.inl (hxu ▸ hu)
        · exact hcover x hxtl
    · have hacc1 : (acc ++ [u]).Nodup := by
        rw [List.nodup_append]
        exact ⟨hacc, List.nodup_singleton u, fun a ha h => hu ((List.mem_singleton.mp h) ▸ ha)⟩
      obtain ⟨s, hfold, hsub, hnd, hdisj, hcover⟩ := ih (acc ++ [u]) hacc1
      refine ⟨u :: s, ?_, hsub.cons₂ u, ?_, ?_, ?_⟩
      · rw [List.foldl_cons]
        simp only [hu, if_false, ite_false]
        rw [hfold, List.append_assoc, List.singleton_append]
      · rw [← List.singleton_append, ← List.append_assoc]
        exact hnd
      · intro x hx
        rcases List.mem_cons.mp hx with hxu | hxs
        · exact hxu ▸ hu
        · intro hxacc
          exact hdisj x hxs (by simp [hxacc])
      · intro x hx
        rcases List.mem_cons.mp hx with hxu | hxtl
        · exact Or.inr (by simp [hxu])
        · rcases hcover x hxtl with hmem | hmem
          · rcases List.mem_append.mp hmem with h1 | h1
            · exact Or.inl h1
            · exact Or.inr (by simp at h1; simp [h1])
          · exact Or.inr (by simp [hmem])

theorem dedupKeepFirst_spec (l : List String) :
    (dedupKeepFirst l).Nodup ∧ (dedupKeepFirst l).Sublist l ∧
      (∀ x, x ∈ dedupKeepFirst l ↔ x ∈ l) := by
  obtain ⟨s, hfold, hsub, hnd, _, hcover⟩ := dedupFold_spec l [] List.nodup_nil
  have hs : dedupKeepFirst l = s := by simpa [dedupKeepFirst] using hfold
  rw [hs]
  refine ⟨by simpa using hnd, hsub, ?_⟩
  intro x
  constructor
  · exact fun hx => hsub.mem hx
  · intro hx
    rcases hcover x hx with h | h
    · simp at h
    · exact h

theorem fetchUrlList_nodup (body : String) : (fetchUrlList body).Nodup :=
  (dedupKeepFirst_spec (splitUrls body)).1

/-- C1: Queue monotonicity.  For every run, after the persist that follows
any valid history of successful completions (each completed url taken from
the deduplicated initial list, none completed twice, interleaved with
other persists in any order), the durable queue file holds exactly the
identifiers of the original deduplicated list that have not been
completed, in their original first-seen order, newline-joined with no
trailing record (the empty list persists as the empty string).  Both the
published and the skipped-already-exists exits of a task run
__complete_url, and main persists after every returning task, so every
persist that follows a successful completion is of this shape. -/
theorem queue_monotonicity (body : String) (fs0 : List String) (evs : List SchedEvent)
    (hmem : ∀ u ∈ completesOf evs, u ∈ fetchUrlList body)
    (hnd : (completesOf evs).Nodup) :
    (runEvents (evs ++ [SchedEvent.persist]) (initState body fs0)).2 = none ∧
    (runEvents (evs ++ [SchedEvent.persist]) (initState body fs0)).1.urlFileContents
      = String.intercalate ("\n") (pendingOf (fetchUrlList body) (completesOf evs)) := by
  have hL : (fetchUrlList body).Nodup := fetchUrlList_nodup body
  have hinit : (initState body fs0).links = pendingOf (fetchUrlList body) [] := by
    simp [initState, pendingOf_nil]
  have hspec := runEvents_spec (fetchUrlList body) hL evs [] (initState body fs0) hinit
    (fun u hu => ⟨hmem u hu, by simp⟩) hnd
  have happ := runEvents_append evs [SchedEvent.persist] (initState body fs0) hspec.1
  rw [happ]
  have hlinks := hspec.2
  simp only [List.nil_append] at hlinks
  simp [runEvents, applyEvent, updateUrlFile, hlinks]

/-- C1 witness: a concrete run over the file A, B with A and B completed
in two steps; after the final persist the file is empty (no trailing
record). -/
theorem queue_monotonicity_witness :
    (runEvents ([SchedEvent.complete ("A"), SchedEvent.persist,
        SchedEvent.complete ("B")] ++ [SchedEvent.persist])
      (initState ("A\nB") [])).2 = none ∧
    (runEvents ([SchedEvent.complete ("A"), SchedEvent.persist,
        SchedEvent.complete ("B")] ++ [SchedEvent.persist])
      (initState ("A\nB") [])).1.urlFileContents
      = String.intercalate ("\n") (pendingOf (fetchUrlList ("A\nB"))
          (completesOf [SchedEvent.complete ("A"), SchedEvent.persist,
            SchedEvent.complete ("B")])) :=
  queue_monotonicity ("A\nB") [] _ (by decide) (by decide)

/-- C3: Dedup-with-order.  __fetch_url_list splits the file body at line
boundaries, drops empty lines (splitUrls is exactly that), and
deduplicates keeping first occurrences: the result is duplicate-free, is a
subsequence of the line list (so surviving occurrences keep their original
relative positions), has the same members as the line list, and on the
concrete input A, B, A, C, B yields A, B, C. -/
theorem dedup_with_order :
    fetchUrlList ("A\nB\nA\nC\nB") = [("A"), ("B"), ("C")] ∧
    ∀ body : String,
      (fetchUrlList body).Nodup ∧
      (fetchUrlList body).Sublist (splitUrls body) ∧
      (∀ x, x ∈ fetchUrlList body ↔ x ∈ splitUrls body) ∧
      ("") ∉ fetchUrlList body := by
  refine ⟨by decide, ?_⟩
  intro body
  obtain ⟨h1, h2, h3⟩ := dedupKeepFirst_spec (splitUrls body)
  refine ⟨h1, h2, h3, ?_⟩
  intro hbad
  have := (h3 ("")).mp hbad
  simp [splitUrls] at this

/-- C7 counterexample: __complete_url on an identifier absent from links
is not a no-op and does raise: the call errors (ValueError from
list.index) and has already appended the identifier to completed_urls. -/
theorem queue_remove_absent_counterexample :
    (completeUrl (initState ("B") []) ("A")).2 ≠ none ∧
    (completeUrl (initState ("B") []) ("A")).1.completedUrls = [("A")] ∧
    (completeUrl (initState ("B") []) ("A")).1.links = [("B")] := by
  decide

/-- C7 amended: removal of a completed identifier deletes the first
element of links equal to it; but when the identifier is absent the
operation is not a silent no-op: it appends the identifier to
completed_urls and then raises ValueError, leaving links unchanged. -/
theorem queue_remove_semantics_amended (st : DlState) (u : String) :
    (u ∈ st.links →
      completeUrl st u
        = ({ st with completedUrls := st.completedUrls ++ [u],
                     links := st.links.erase u }, none)) ∧
    (u ∉ st.links →
      completeUrl st u
        = ({ st with completedUrls := st.completedUrls ++ [u] },
            some ("ValueError: url not in links"))) :=
  ⟨completeUrl_of_mem st u, completeUrl_of_not_mem st u⟩

/-- C7 amended witness: on links B, A, B completing B removes the first B
only, and completing a missing C raises. -/
theorem queue_remove_semantics_amended_witness :
    (completeUrl stBAB ("B")).1.links = [("A"), ("B")] ∧
    (completeUrl stBAB ("B")).1.completedUrls = [("B")] ∧
    (completeUrl stBAB ("B")).2 = none ∧
    (completeUrl stBAB ("C")).2 = some ("ValueError: url not in links") := by
  have hb := (queue_remove_semantics_amended stBAB ("B")).1 (by decide)
  have hc := (queue_remove_semantics_amended stBAB ("C")).2 (by decide)
  rw [hb, hc]
  decide

/-- C10: a task that observes the abort flag already set at entry returns
immediately (line 173) with the state untouched: no request is issued, no
temp file is created or registered, and links, completed_urls and the
durable file keep their values. -/
theorem abort_preset_noop (cfg : Config) (env : Env) (p : TaskParams)
    (st : DlState) (url : String) (fileNameArg : Option String)
    (h : p.abortSig 0 = true) :
    downloadWithProgressBar cfg env p st url fileNameArg
      = (st, ExecResult.ret Outcome.notStarted) := by
  simp [downloadWithProgressBar, h]

/-- C10 witness: concrete pre-set abort leaves a concrete state unchanged. -/
theorem abort_preset_noop_witness :
    downloadWithProgressBar cfg0 env0
      { ts := ("T0"), tick := 1, resp := Except.ok respOneShot, abortSig := fun _ => true }
      (initState ("http://h/a.txt") []) ("http://h/a.txt") none
      = (initState ("http://h/a.txt") [], ExecResult.ret Outcome.notStarted) :=
  abort_preset_noop cfg0 env0 _ _ _ none (by decide)

theorem delayStage_links (cfg : Config) (st : DlState) :
    (delayStage cfg st).links = st.links := by
  cases h : st.started <;> by_cases hd : cfg.downloadDelay = 0 <;> simp [delayStage, h, hd]

theorem delayStage_completedUrls (cfg : Config) (st : DlState) :
    (delayStage cfg st).completedUrls = st.completedUrls := by
  cases h : st.started <;> by_cases hd : cfg.downloadDelay = 0 <;> simp [delayStage, h, hd]

theorem delayStage_tempFiles (cfg : Config) (st : DlState) :
    (delayStage cfg st).tempFiles = st.tempFiles := by
  cases h : st.started <;> by_cases hd : cfg.downloadDelay = 0 <;> simp [delayStage, h, hd]

theorem delayStage_tempsCreated (cfg : Config) (st : DlState) :
    (delayStage cfg st).tempsCreated = st.tempsCreated := by
  cases h : st.started <;> by_cases hd : cfg.downloadDelay = 0 <;> simp [delayStage, h, hd]

theorem delayStage_fs (cfg : Config) (st : DlState) :
    (delayStage cfg st).fs = st.fs := by
  cases h : st.started <;> by_cases hd : cfg.downloadDelay = 0 <;> simp [delayStage, h, hd]

theorem delayStage_urlFileContents (cfg : Config) (st : DlState) :
    (delayStage cfg st).urlFileContents = st.urlFileContents := by
  cases h : st.started <;> by_cases hd : cfg.downloadDelay = 0 <;> simp [delayStage, h, hd]

theorem delayStage_fetches (cfg : Config) (st : DlState) :
    (delayStage cfg st).fetches = st.fetches := by
  cases h : st.started <;> by_cases hd : cfg.downloadDelay = 0 <;> simp [delayStage, h, hd]

theorem delayStage_sleeps_not_started (cfg : Config) (st : DlState) (h : st.started = false) :
    (delayStage cfg st).sleeps = st.sleeps := by
  simp [delayStage, h]

theorem delayStage_sleeps_started (cfg : Config) (st : DlState) (h : st.started = true) :
    (delayStage cfg st).sleeps
      = (if cfg.downloadDelay ≠ 0 then st.sleeps ++ [cfg.downloadDelay] else st.sleeps) := by
  by_cases hd : cfg.downloadDelay = 0 <;> simp [delayStage, h, hd]

theorem completeUrl_sleeps (st : DlState) (u : String) :
    (completeUrl st u).1.sleeps = st.sleeps := by
  by_cases h : u ∈ st.links <;> simp [completeUrl, h]

theorem completeUrl_fs (st : DlState) (u : String) :
    (completeUrl st u).1.fs = st.fs := by
  by_cases h : u ∈ st.links <;> simp [completeUrl, h]

theorem completeUrl_tempFiles (st : DlState) (u : String) :
    (completeUrl st u).1.tempFiles = st.tempFiles := by
  by_cases h : u ∈ st.links <;> simp [completeUrl, h]

theorem completeUrl_tempsCreated (st : DlState) (u : String) :
    (completeUrl st u).1.tempsCreated = st.tempsCreated := by
  by_cases h : u ∈ st.links <;> simp [completeUrl, h]

theorem completeUrl_fetches (st : DlState) (u : String) :
    (completeUrl st u).1.fetches = st.fetches := by
  by_cases h : u ∈ st.links <;> simp [completeUrl, h]

theorem completeUrl_urlFileContents (st : DlState) (u : String) :
    (completeUrl st u).1.urlFileContents = st.urlFileContents := by
  by_cases h : u ∈ st.links <;> simp [completeUrl, h]

theorem finishPublish_sleeps (st : DlState) (url t f : String) :
    (finishPublish st url t f).1.sleeps = st.sleeps := by
  by_cases h : url ∈ st.links <;> simp [finishPublish, removeTempFile, completeUrl, h]

theorem finishPublish_tempsCreated (st : DlState) (url t f : String) :
    (finishPublish st url t f).1.tempsCreated = st.tempsCreated := by
  by_cases h : url ∈ st.links <;> simp [finishPublish, removeTempFile, completeUrl, h]

theorem finishPublish_fetches (st : DlState) (url t f : String) :
    (finishPublish st url t f).1.fetches = st.fetches := by
  by_cases h : url ∈ st.links <;> simp [finishPublish, removeTempFile, completeUrl, h]

theorem finishPublish_urlFileContents (st : DlState) (url t f : String) :
    (finishPublish st url t f).1.urlFileContents = st.urlFileContents := by
  by_cases h : url ∈ st.links <;> simp [finishPublish, removeTempFile, completeUrl, h]

theorem finishPublish_of_mem (st : DlState) (url t f : String) (h : url ∈ st.links) :
    finishPublish st url t f
      = ({ st with fs := (st.fs.erase t) ++ [f],
                   tempFiles := st.tempFiles.filter (fun x => x != t),
                   completedUrls := st.completedUrls ++ [url],
                   links := st.links.erase url }, ExecResult.ret Outcome.published) := by
  simp [finishPublish, removeTempFile, completeUrl, h, eraseIdx_indexOf_eq_erase]

theorem transferStage_error (cfg : Config) (p : TaskParams) (st : DlState)
    (url t f e : String) (he : p.resp = Except.error e) :
    transferStage cfg p st url t f
      = ({ delayStage cfg st with
            tempFiles := st.tempFiles ++ [t],
            tempsCreated := st.tempsCreated ++ [t],
            fetches := st.fetches ++ [url] }, ExecResult.exc e) := by
  simp [transferStage, he, delayStage_tempFiles, delayStage_tempsCreated, delayStage_fetches]

theorem transferStage_aborted (cfg : Config) (p : TaskParams) (st : DlState)
    (url t f : String) (r : Resp) (n : Nat) (hr : p.resp = Except.ok r)
    (hlen : r.contentLength = some n)
    (hab : (observeAbort p.abortSig 1 r.chunks).isSome) :
    transferStage cfg p st url t f
      = ({ delayStage cfg st with
            tempFiles := st.tempFiles ++ [t],
            tempsCreated := st.tempsCreated ++ [t],
            fetches := st.fetches ++ [url],
            fs := st.fs ++ [t] }, ExecResult.ret Outcome.aborted) := by
  obtain ⟨k, hk⟩ := Option.isSome_iff_exists.mp hab
  simp [transferStage, hr, hlen, hk, delayStage_tempFiles, delayStage_tempsCreated,
    delayStage_fetches, delayStage_fs]

theorem transferStage_chunkErr (cfg : Config) (p : TaskParams) (st : DlState)
    (url t f e : String) (r : Resp) (n : Nat) (hr : p.resp = Except.ok r)
    (hlen : r.contentLength = some n)
    (hab : observeAbort p.abortSig 1 r.chunks = none)
    (herr : r.chunkErr = some e) :
    transferStage cfg p st url t f
      = ({ delayStage cfg st with
            tempFiles := st.tempFiles ++ [t],
            tempsCreated := st.tempsCreated ++ [t],
            fetches := st.fetches ++ [url],
            fs := st.fs ++ [t] }, ExecResult.exc e) := by
  simp [transferStage, hr, hlen, hab, herr, delayStage_tempFiles, delayStage_tempsCreated,
    delayStage_fetches, delayStage_fs]

theorem transferStage_publish_noLen (cfg : Config) (p : TaskParams) (st : DlState)
    (url t f : String) (r : Resp) (hr : p.resp = Except.ok r)
    (hlen : r.contentLength = none) (hmem : url ∈ st.links) :
    transferStage cfg p st url t f
      = ({ delayStage cfg st with
            tempFiles := (st.tempFiles ++ [t]).filter (fun x => x != t),
            tempsCreated := st.tempsCreated ++ [t],
            fetches := st.fetches ++ [url],
            fs := ((st.fs ++ [t]).erase t) ++ [f],
            completedUrls := st.completedUrls ++ [url],
            links := st.links.erase url }, ExecResult.ret Outcome.published) := by
  have hmem1 : url ∈ (delayStage cfg st).links := by rw [delayStage_links]; exact hmem
  simp [transferStage, hr, hlen, finishPublish, removeTempFile, completeUrl,
    delayStage_tempFiles, delayStage_tempsCreated, delayStage_fetches, delayStage_fs,
    delayStage_links, delayStage_completedUrls, hmem, eraseIdx_indexOf_eq_erase]

theorem transferStage_publish_streamed (cfg : Config) (p : TaskParams) (st : DlState)
    (url t f : String) (r : Resp) (n : Nat) (hr : p.resp = Except.ok r)
    (hlen : r.contentLength = some n)
    (hab : observeAbort p.abortSig 1 r.chunks = none)
    (herr : r.chunkErr = none) (hmem : url ∈ st.links) :
    transferStage cfg p st url t f
      = ({ delayStage cfg st with
            tempFiles := (st.tempFiles ++ [t]).filter (fun x => x != t),
            tempsCreated := st.tempsCreated ++ [t],
            fetches := st.fetches ++ [url],
            fs := ((st.fs ++ [t]).erase t) ++ [f],
            completedUrls := st.completedUrls ++ [url],
            links := st.links.erase url }, ExecResult.ret Outcome.published) := by
  simp [transferStage, hr, hlen, hab, herr, finishPublish, removeTempFile, completeUrl,
    delayStage_tempFiles, delayStage_tempsCreated, delayStage_fetches, delayStage_fs,
    delayStage_links, delayStage_completedUrls, hmem, eraseIdx_indexOf_eq_erase]

theorem exec_none_eq (cfg : Config) (env : Env) (p : TaskParams) (st : DlState)
    (url : String) (h0 : p.abortSig 0 = false) :
    downloadWithProgressBar cfg env p st url none
      = (if finalPathOf cfg env p.tick url ∈ st.fs then
          match completeUrl st url with
          | (st1, some e) => (st1, ExecResult.exc e)
          | (st1, none) => (st1, ExecResult.ret Outcome.skipped)
        else
          transferStage cfg p st url (tempPathOf cfg env p.tick p.ts url)
            (finalPathOf cfg env p.tick url)) := by
  simp only [downloadWithProgressBar, h0, Bool.false_eq_true, if_false, finalPathOf, tempPathOf]

theorem exec_skip (cfg : Config) (env : Env) (p : TaskParams) (st : DlState)
    (url : String) (h0 : p.abortSig 0 = false) (hmem : url ∈ st.links)
    (hfs : finalPathOf cfg env p.tick url ∈ st.fs) :
    downloadWithProgressBar cfg env p st url none
      = ({ st with completedUrls := st.completedUrls ++ [url],
                   links := st.links.erase url }, ExecResult.ret Outcome.skipped) := by
  rw [exec_none_eq cfg env p st url h0, if_pos hfs, completeUrl_of_mem st url hmem]

theorem transferStage_sleeps (cfg : Config) (p : TaskParams) (st : DlState)
    (url t f : String) :
    (transferStage cfg p st url t f).1.sleeps = (delayStage cfg st).sleeps := by
  unfold transferStage
  cases hr : p.resp with
  | error e => simp
  | ok r =>
    cases hl : r.contentLength with
    | none => simp [hl, finishPublish_sleeps]
    | some n =>
      cases hab : observeAbort p.abortSig 1 r.chunks with
      | some k => simp [hl, hab]
      | none =>
        cases herr : r.chunkErr with
        | some e => simp [hl, hab, herr]
        | none => simp [hl, hab, herr, finishPublish_sleeps]

theorem transferStage_tempsCreated (cfg : Config) (p : TaskParams) (st : DlState)
    (url t f : String) :
    (transferStage cfg p st url t f).1.tempsCreated = st.tempsCreated ++ [t] := by
  unfold transferStage
  cases hr : p.resp with
  | error e => simp [delayStage_tempsCreated]
  | ok r =>
    cases hl : r.contentLength with
    | none => simp [hl, finishPublish_tempsCreated, delayStage_tempsCreated]
    | some n =>
      cases hab : observeAbort p.abortSig 1 r.chunks with
      | some k => simp [hl, hab, delayStage_tempsCreated]
      | none =>
        cases herr : r.chunkErr with
        | some e => simp [hl, hab, herr, delayStage_tempsCreated]
        | none => simp [hl, hab, herr, finishPublish_tempsCreated, delayStage_tempsCreated]

theorem noDot_append_inj (a1 a2 : List Char) :
    ∀ (b1 b2 : List Char), '.' ∉ b1 → '.' ∉ b2 →
      b1 ++ '.' :: a1 = b2 ++ '.' :: a2 → b1 = b2 ∧ a1 = a2 := by
  intro b1
  induction b1 with
  | nil =>
    intro b2 h1 h2 h
    cases b2 with
    | nil =>
      simp only [List.nil_append] at h
      injection h with _ ha
      exact ⟨rfl, ha⟩
    | cons c b2t =>
      simp only [List.nil_append, List.cons_append] at h
      injection h with hc _
      have : '.' ∈ c :: b2t := by rw [hc]; exact List.mem_cons_self c b2t
      exact absurd this h2
  | cons c b1t ih =>
    intro b2 h1 h2 h
    cases b2 with
    | nil =>
      simp only [List.nil_append, List.cons_append] at h
      injection h with hc _
      have : '.' ∈ c :: b1t := by rw [← hc]; exact List.mem_cons_self c b1t
      exact absurd this h1
    | cons d b2t =>
      simp only [List.cons_append] at h
      injection h with hc htail
      have h1t : '.' ∉ b1t := fun hx => h1 (List.mem_cons_of_mem c hx)
      have h2t : '.' ∉ b2t := fun hx => h2 (List.mem_cons_of_mem d hx)
      obtain ⟨hb, ha⟩ := ih b2t h1t h2t htail
      exact ⟨by rw [hc, hb], ha⟩

theorem tempNameOf_inj (n1 t1 n2 t2 : String)
    (h1 : '.' ∉ t1.data) (h2 : '.' ∉ t2.data)
    (h : tempNameOf n1 t1 = tempNameOf n2 t2) : n1 = n2 ∧ t1 = t2 := by
  have hdata : (n1.data ++ '.' :: t1.data) ++ ['.', 't', 'm', 'p']
      = (n2.data ++ '.' :: t2.data) ++ ['.', 't', 'm', 'p'] := by
    have hd := congrArg String.data h
    simp only [tempNameOf] at hd
    change n1.data ++ ['.'] ++ t1.data ++ (['.', 't', 'm', 'p']) =
      n2.data ++ ['.'] ++ t2.data ++ (['.', 't', 'm', 'p']) at hd
    simp only [List.append_assoc, List.singleton_append] at hd ⊢
    exact hd
  have hmid := List.append_cancel_right hdata
  have hrev : t1.data.reverse ++ '.' :: n1.data.reverse
      = t2.data.reverse ++ '.' :: n2.data.reverse := by
    have := congrArg List.reverse hmid
    simpa [List.reverse_append] using this
  have h1r : '.' ∉ t1.data.reverse := by simpa using h1
  have h2r : '.' ∉ t2.data.reverse := by simpa using h2
  obtain ⟨hbt, hbn⟩ := noDot_append_inj n1.data.reverse n2.data.reverse
    t1.data.reverse t2.data.reverse h1r h2r hrev
  constructor
  · exact String.ext (List.reverse_inj.mp hbn)
  · exact String.ext (List.reverse_inj.mp hbt)

/-- C5: Cancellation safety.  When the abort flag is clear at entry but is
observed set at a chunk boundary of the streaming loop, the task returns
aborted without renaming: the final path stays absent (only the temp path
was created), exactly the one temp-file entry registered by this execution
remains, links and completed_urls are untouched, and persisting the queue
afterwards (as main does when the task returns) writes a file that still
lists the in-flight identifier. -/
theorem cancellation_safety (cfg : Config) (env : Env) (p : TaskParams)
    (st : DlState) (url : String) (r : Resp) (n : Nat)
    (h0 : p.abortSig 0 = false)
    (hresp : p.resp = Except.ok r)
    (hlen : r.contentLength = some n)
    (hab : (observeAbort p.abortSig 1 r.chunks).isSome)
    (hfs : finalPathOf cfg env p.tick url ∉ st.fs)
    (hne : finalPathOf cfg env p.tick url ≠ tempPathOf cfg env p.tick p.ts url) :
    (downloadWithProgressBar cfg env p st url none).2 = ExecResult.ret Outcome.aborted ∧
    (downloadWithProgressBar cfg env p st url none).1.fs
      = st.fs ++ [tempPathOf cfg env p.tick p.ts url] ∧
    finalPathOf cfg env p.tick url ∉ (downloadWithProgressBar cfg env p st url none).1.fs ∧
    (downloadWithProgressBar cfg env p st url none).1.tempFiles
      = st.tempFiles ++ [tempPathOf cfg env p.tick p.ts url] ∧
    (downloadWithProgressBar cfg env p st url none).1.links = st.links ∧
    (downloadWithProgressBar cfg env p st url none).1.completedUrls = st.completedUrls ∧
    (updateUrlFile (downloadWithProgressBar cfg env p st url none).1).urlFileContents
      = String.intercalate ("\n") st.links := by
  have hexec : downloadWithProgressBar cfg env p st url none
      = ({ delayStage cfg st with
            tempFiles := st.tempFiles ++ [tempPathOf cfg env p.tick p.ts url],
            tempsCreated := st.tempsCreated ++ [tempPathOf cfg env p.tick p.ts url],
            fetches := st.fetches ++ [url],
            fs := st.fs ++ [tempPathOf cfg env p.tick p.ts url] },
          ExecResult.ret Outcome.aborted) := by
    rw [exec_none_eq cfg env p st url h0, if_neg hfs]
    exact transferStage_aborted cfg p st url _ _ r n hresp hlen hab
  rw [hexec]
  refine ⟨rfl, by simp [delayStage_fs], ?_, by simp [delayStage_tempFiles],
    by simp [delayStage_links], by simp [delayStage_completedUrls],
    by simp [updateUrlFile, delayStage_links]⟩
  simp only [List.mem_append, List.mem_singleton]
  rintro (hin | heq)
  · exact hfs hin
  · exact hne heq

/-- C5 witness: a concrete transfer aborted at the first chunk boundary. -/
theorem cancellation_safety_witness :
    (downloadWithProgressBar cfg0 env0 paramsAbortMid
        (initState ("http://h/a.txt") []) ("http://h/a.txt") none).2
      = ExecResult.ret Outcome.aborted ∧
    (downloadWithProgressBar cfg0 env0 paramsAbortMid
        (initState ("http://h/a.txt") []) ("http://h/a.txt") none).1.fs
      = (initState ("http://h/a.txt") []).fs
          ++ [tempPathOf cfg0 env0 paramsAbortMid.tick paramsAbortMid.ts ("http://h/a.txt")] ∧
    finalPathOf cfg0 env0 paramsAbortMid.tick ("http://h/a.txt")
      ∉ (downloadWithProgressBar cfg0 env0 paramsAbortMid
          (initState ("http://h/a.txt") []) ("http://h/a.txt") none).1.fs ∧
    (downloadWithProgressBar cfg0 env0 paramsAbortMid
        (initState ("http://h/a.txt") []) ("http://h/a.txt") none).1.tempFiles
      = (initState ("http://h/a.txt") []).tempFiles
          ++ [tempPathOf cfg0 env0 paramsAbortMid.tick paramsAbortMid.ts ("http://h/a.txt")] ∧
    (downloadWithProgressBar cfg0 env0 paramsAbortMid
        (initState ("http://h/a.txt") []) ("http://h/a.txt") none).1.links
      = (initState ("http://h/a.txt") []).links ∧
    (downloadWithProgressBar cfg0 env0 paramsAbortMid
        (initState ("http://h/a.txt") []) ("http://h/a.txt") none).1.completedUrls
      = (initState ("http://h/a.txt") []).completedUrls ∧
    (updateUrlFile (downloadWithProgressBar cfg0 env0 paramsAbortMid
        (initState ("http://h/a.txt") []) ("http://h/a.txt") none).1).urlFileContents
      = String.intercalate ("\n") (initState ("http://h/a.txt") []).links :=
  cancellation_safety cfg0 env0 paramsAbortMid (initState ("http://h/a.txt") [])
    ("http://h/a.txt") respChunks 2 (by decide) rfl rfl (by decide) (by decide) (by decide)

/-- C6 counterexample: with thread_limit 2 and a one-second delay, a full
run over two identifiers still sleeps before the second download (the code
never consults thread_limit when deciding to sleep), contradicting the
claim that no delay is applied under multi-worker operation. -/
theorem delay_policy_counterexample :
    cfgTwoThreads.threadLimit = 2 ∧
    (runOnce cfgTwoThreads env0 paramsOk
        (initState ("http://h/a.txt\nhttp://h/b.txt") [])).1.sleeps = [(1 : Rat)] := by
  decide

/-- C6 amended: the configured delay is applied before a download exactly
when some earlier invocation of the run has already begun a download and
the delay is nonzero, for every thread_limit alike; it never precedes the
first download of a run.  (The quantification over cfg covers every
thread_limit value: the sleep decision of lines 199-204 never reads it.) -/
theorem delay_policy_amended (cfg : Config) (env : Env) (p : TaskParams)
    (st : DlState) (url : String)
    (h0 : p.abortSig 0 = false)
    (hfs : finalPathOf cfg env p.tick url ∉ st.fs) :
    (st.started = false →
      (downloadWithProgressBar cfg env p st url none).1.sleeps = st.sleeps) ∧
    (st.started = true →
      (downloadWithProgressBar cfg env p st url none).1.sleeps
        = (if cfg.downloadDelay ≠ 0 then st.sleeps ++ [cfg.downloadDelay] else st.sleeps)) := by
  have hs : (downloadWithProgressBar cfg env p st url none).1.sleeps
      = (delayStage cfg st).sleeps := by
    rw [exec_none_eq cfg env p st url h0, if_neg hfs]
    exact transferStage_sleeps cfg p st url _ _
  constructor
  · intro h
    rw [hs, delayStage_sleeps_not_started cfg st h]
  · intro h
    rw [hs, delayStage_sleeps_started cfg st h]

/-- C6 amended witness: with two workers configured and the delay set, an
invocation in a started run sleeps once. -/
theorem delay_policy_amended_witness :
    (downloadWithProgressBar cfgTwoThreads env0 (paramsOk 0) stStarted
        ("http://h/a.txt") none).1.sleeps = [(1 : Rat)] := by
  have h := (delay_policy_amended cfgTwoThreads env0 (paramsOk 0) stStarted
    ("http://h/a.txt") (by decide) (by decide)).2 rfl
  rw [h]
  decide

/-- C9 counterexample: under preserve_paths the temp file of a url with an
intermediate path segment is created in the destination root while the
final path lives in a subdirectory, so the temp file is not adjacent to
its final destination path. -/
theorem temp_placement_counterexample :
    (downloadWithProgressBar cfgPreserve env0 (paramsOk 0)
        (initState ("http://h/sub/a.txt") []) ("http://h/sub/a.txt") none).1.tempsCreated
      = [("/out/a.txt.T0.tmp")] ∧
    (downloadWithProgressBar cfgPreserve env0 (paramsOk 0)
        (initState ("http://h/sub/a.txt") []) ("http://h/sub/a.txt") none).1.fs
      = [("/out/sub/a.txt")] ∧
    dirnameOf ("/out/a.txt.T0.tmp") ≠ dirnameOf ("/out/sub/a.txt") := by
  decide

/-- C9 amended: every temp file is created in the destination root
directory (adjacent to the final path only when preserve_structure is off
or the url has no intermediate segments), named final-name dot timestamp
dot tmp; and the naming is injective: two registrations whose dot-free
timestamp strings or final names differ never share a path, which with the
sub-second (microsecond) clock embedded in the timestamp keeps concurrent
temp files of one run apart. -/
theorem temp_placement_amended (cfg : Config) (env : Env) (p : TaskParams)
    (st : DlState) (url : String)
    (h0 : p.abortSig 0 = false)
    (hfs : finalPathOf cfg env p.tick url ∉ st.fs) :
    (downloadWithProgressBar cfg env p st url none).1.tempsCreated
      = st.tempsCreated
          ++ [pathJoin cfg.destinationPath (tempNameOf (deriveFileName env p.tick url) p.ts)] ∧
    (∀ n1 t1 n2 t2 : String, '.' ∉ t1.data → '.' ∉ t2.data →
      tempNameOf n1 t1 = tempNameOf n2 t2 → n1 = n2 ∧ t1 = t2) := by
  constructor
  · rw [exec_none_eq cfg env p st url h0, if_neg hfs]
    simpa [tempPathOf] using transferStage_tempsCreated cfg p st url
      (tempPathOf cfg env p.tick p.ts url) (finalPathOf cfg env p.tick url)
  · intro n1 t1 n2 t2 h1 h2 h
    exact tempNameOf_inj n1 t1 n2 t2 h1 h2 h

/-- C9 amended witness: a concrete registration in the destination root,
and two equal-name registrations with different timestamps that cannot
collide. -/
theorem temp_placement_amended_witness :
    (downloadWithProgressBar cfg0 env0 (paramsOk 0)
        (initState ("http://h/a.txt") []) ("http://h/a.txt") none).1.tempsCreated
      = [pathJoin cfg0.destinationPath
          (tempNameOf (deriveFileName env0 (paramsOk 0).tick ("http://h/a.txt")) (paramsOk 0).ts)] ∧
    (tempNameOf ("a.txt") ("2024-01-01_00-00-00-1") = tempNameOf ("a.txt") ("2024-01-01_00-00-00-2")
      → False) := by
  have h := temp_placement_amended cfg0 env0 (paramsOk 0)
    (initState ("http://h/a.txt") []) ("http://h/a.txt") (by decide) (by decide)
  constructor
  · simpa using h.1
  · intro heq
    have h2 := (h.2 ("a.txt") ("2024-01-01_00-00-00-1") ("a.txt") ("2024-01-01_00-00-00-2")
      (by decide) (by decide) heq).2
    exact absurd h2 (by decide)

/-- C4 counterexample: an execution aborted mid-transfer has stopped
writing, yet its Temp File Entry is still registered (temp_files is
nonempty), so the set of entries is not the set of executions currently
writing bytes, and an abort return does not deregister the entry. -/
theorem temp_entry_abort_counterexample :
    (downloadWithProgressBar cfg0 env0 paramsAbortMid
        (initState ("http://h/a.txt") []) ("http://h/a.txt") none).2
      = ExecResult.ret Outcome.aborted ∧
    (downloadWithProgressBar cfg0 env0 paramsAbortMid
        (initState ("http://h/a.txt") []) ("http://h/a.txt") none).1.tempFiles
      = [("/out/a.txt.T0.tmp")] := by
  decide

/-- C4 amended: a Temp File Entry is registered just before the network
request is issued (line 207, before the temp path is opened) and is
deregistered only by a successful publish (the rename path); an abort
return or a transfer failure (requests.get or stream read raising) leaves
the entry registered for operator cleanup. -/
theorem temp_entry_lifecycle_amended (cfg : Config) (env : Env) (p : TaskParams)
    (st : DlState) (url : String)
    (h0 : p.abortSig 0 = false)
    (hmem : url ∈ st.links)
    (hfs : finalPathOf cfg env p.tick url ∉ st.fs) :
    ((downloadWithProgressBar cfg env p st url none).2 = ExecResult.ret Outcome.published →
      (downloadWithProgressBar cfg env p st url none).1.tempFiles
        = (st.tempFiles ++ [tempPathOf cfg env p.tick p.ts url]).filter
            (fun x => x != tempPathOf cfg env p.tick p.ts url)) ∧
    ((downloadWithProgressBar cfg env p st url none).2 = ExecResult.ret Outcome.aborted →
      (downloadWithProgressBar cfg env p st url none).1.tempFiles
        = st.tempFiles ++ [tempPathOf cfg env p.tick p.ts url]) ∧
    (∀ e, (downloadWithProgressBar cfg env p st url none).2 = ExecResult.exc e →
      (downloadWithProgressBar cfg env p st url none).1.tempFiles
        = st.tempFiles ++ [tempPathOf cfg env p.tick p.ts url]) := by
  rw [exec_none_eq cfg env p st url h0, if_neg hfs]
  cases hr : p.resp with
  | error e =>
    rw [transferStage_error cfg p st url _ _ e hr]
    exact ⟨fun hh => by simp at hh, fun hh => by simp at hh, fun e2 _ => by simp⟩
  | ok r =>
    cases hl : r.contentLength with
    | none =>
      rw [transferStage_publish_noLen cfg p st url _ _ r hr hl hmem]
      exact ⟨fun _ => by simp, fun hh => by simp at hh, fun e he => by simp at he⟩
    | some n =>
      cases hab : observeAbort p.abortSig 1 r.chunks with
      | some k =>
        have habs : (observeAbort p.abortSig 1 r.chunks).isSome = true := by simp [hab]
        rw [transferStage_aborted cfg p st url _ _ r n hr hl habs]
        exact ⟨fun hh => by simp at hh, fun _ => by simp, fun e he => by simp at he⟩
      | none =>
        cases herr : r.chunkErr with
        | some e =>
          rw [transferStage_chunkErr cfg p st url _ _ e r n hr hl hab herr]
          exact ⟨fun hh => by simp at hh, fun hh => by simp at hh, fun e2 _ => by simp⟩
        | none =>
          rw [transferStage_publish_streamed cfg p st url _ _ r n hr hl hab herr hmem]
          exact ⟨fun _ => by simp, fun hh => by simp at hh, fun e he => by simp at he⟩

/-- C4 amended witness: a concrete publish deregisters the entry it
registered. -/
theorem temp_entry_lifecycle_amended_witness :
    (downloadWithProgressBar cfg0 env0 (paramsOk 0)
        (initState ("http://h/a.txt") []) ("http://h/a.txt") none).1.tempFiles
      = ((initState ("http://h/a.txt") []).tempFiles
            ++ [tempPathOf cfg0 env0 (paramsOk 0).tick (paramsOk 0).ts ("http://h/a.txt")]).filter
          (fun x => x != tempPathOf cfg0 env0 (paramsOk 0).tick (paramsOk 0).ts ("http://h/a.txt")) :=
  (temp_entry_lifecycle_amended cfg0 env0 (paramsOk 0)
    (initState ("http://h/a.txt") []) ("http://h/a.txt")
    (by decide) (by decide) (by decide)).1 (by decide)

/-- C8 counterexample: when the first task raises a transfer error, the
completion loop of main re-raises it out of future.result (only
KeyboardInterrupt is caught): the run ends with the error instead of
continuing under logging, and no persist happens after the failure (the
durable file still holds its initial contents). -/
theorem transfer_failure_counterexample :
    (runOnce cfg0 env0 paramsFirstFails
        (initState ("http://h/a.txt\nhttp://h/b.txt") [])).2 = some ("TransferError") ∧
    (runOnce cfg0 env0 paramsFirstFails
        (initState ("http://h/a.txt\nhttp://h/b.txt") [])).1.urlFileContents
      = ("http://h/a.txt\nhttp://h/b.txt") := by
  decide

/-- C8 amended: a transfer failure propagates out of the completion loop
uncaught: the loop stops at the failing task with that error (no further
persists; already-queued futures of the real pool still execute during
executor shutdown, but their completions are never persisted), the process
terminates abnormally rather than surfacing the failure via logging only,
and the failed identifier is never completed, so it is still listed both
in links and in the durable queue file as last persisted before the
failure. -/
theorem transfer_failure_amended (cfg : Config) (env : Env)
    (params : Nat → TaskParams) (u : String) (rest : List String) (i : Nat)
    (st : DlState) (e : String)
    (h0 : (params i).abortSig 0 = false)
    (hresp : (params i).resp = Except.error e)
    (hfs : finalPathOf cfg env (params i).tick u ∉ st.fs) :
    (mainLoopSeq cfg env params (u :: rest) i st).2 = some e ∧
    (mainLoopSeq cfg env params (u :: rest) i st).1.links = st.links ∧
    (mainLoopSeq cfg env params (u :: rest) i st).1.completedUrls = st.completedUrls ∧
    (mainLoopSeq cfg env params (u :: rest) i st).1.urlFileContents = st.urlFileContents ∧
    (mainLoopSeq cfg env params (u :: rest) i st).1.fetches = st.fetches ++ [u] := by
  have hexec : downloadWithProgressBar cfg env (params i) st u none
      = ({ delayStage cfg st with
            tempFiles := st.tempFiles ++ [tempPathOf cfg env (params i).tick (params i).ts u],
            tempsCreated := st.tempsCreated ++ [tempPathOf cfg env (params i).tick (params i).ts u],
            fetches := st.fetches ++ [u] }, ExecResult.exc e) := by
    rw [exec_none_eq cfg env (params i) st u h0, if_neg hfs]
    exact transferStage_error cfg (params i) st u _ _ e hresp
  simp only [mainLoopSeq, hexec]
  exact ⟨by simp, by simp [delayStage_links], by simp [delayStage_completedUrls],
    by simp [delayStage_urlFileContents], by simp⟩

/-- C8 amended witness: the concrete failing run stops with the error and
the pre-failure file contents. -/
theorem transfer_failure_amended_witness :
    (mainLoopSeq cfg0 env0 paramsFirstFails
        ([("http://h/a.txt"), ("http://h/b.txt")]) 0
        (initState ("http://h/a.txt\nhttp://h/b.txt") [])).2 = some ("TransferError") ∧
    (mainLoopSeq cfg0 env0 paramsFirstFails
        ([("http://h/a.txt"), ("http://h/b.txt")]) 0
        (initState ("http://h/a.txt\nhttp://h/b.txt") [])).1.links
      = (initState ("http://h/a.txt\nhttp://h/b.txt") []).links ∧
    (mainLoopSeq cfg0 env0 paramsFirstFails
        ([("http://h/a.txt"), ("http://h/b.txt")]) 0
        (initState ("http://h/a.txt\nhttp://h/b.txt") [])).1.completedUrls
      = (initState ("http://h/a.txt\nhttp://h/b.txt") []).completedUrls ∧
    (mainLoopSeq cfg0 env0 paramsFirstFails
        ([("http://h/a.txt"), ("http://h/b.txt")]) 0
        (initState ("http://h/a.txt\nhttp://h/b.txt") [])).1.urlFileContents
      = (initState ("http://h/a.txt\nhttp://h/b.txt") []).urlFileContents ∧
    (mainLoopSeq cfg0 env0 paramsFirstFails
        ([("http://h/a.txt"), ("http://h/b.txt")]) 0
        (initState ("http://h/a.txt\nhttp://h/b.txt") [])).1.fetches
      = (initState ("http://h/a.txt\nhttp://h/b.txt") []).fetches ++ [("http://h/a.txt")] :=
  transfer_failure_amended cfg0 env0 paramsFirstFails ("http://h/a.txt")
    [("http://h/b.txt")] 0 (initState ("http://h/a.txt\nhttp://h/b.txt") [])
    ("TransferError") (by decide) rfl (by decide)

theorem deriveFileName_tick_eq (env : Env) (url : String) (t1 t2 : Nat)
    (h : derivedSegment env url ≠ "") :
    deriveFileName env t1 url = deriveFileName env t2 url := by
  simp [deriveFileName, h]

theorem finalPathOf_tick_eq (cfg : Config) (env : Env) (url : String) (t1 t2 : Nat)
    (h : derivedSegment env url ≠ "") :
    finalPathOf cfg env t1 url = finalPathOf cfg env t2 url := by
  simp [finalPathOf, deriveFileName_tick_eq env url t1 t2 h]

theorem foldl_erase_self (L : List String) (h : L.Nodup) :
    List.foldl List.erase L L = [] := by
  induction L with
  | nil => rfl
  | cons u T ih =>
    have h1 : (u :: T).erase u = T := by simp [List.erase_cons]
    calc List.foldl List.erase (u :: T) (u :: T)
        = List.foldl List.erase ((u :: T).erase u) T := by rw [List.foldl_cons]
      _ = List.foldl List.erase T T := by rw [h1]
      _ = [] := ih h.of_cons

theorem mainLoop_skip_all (cfg : Config) (env : Env) (params : Nat → TaskParams)
    (habort : ∀ j, (params j).abortSig 0 = false) :
    ∀ (urls : List String) (i : Nat) (st : DlState),
      urls.Nodup →
      (∀ u ∈ urls, u ∈ st.links) →
      (∀ u ∈ urls, derivedSegment env u ≠ "") →
      (∀ u ∈ urls, finalPathOf cfg env 0 u ∈ st.fs) →
      (mainLoopSeq cfg env params urls i st).2 = none ∧
      (mainLoopSeq cfg env params urls i st).1.fetches = st.fetches ∧
      (mainLoopSeq cfg env params urls i st).1.fs = st.fs ∧
      (mainLoopSeq cfg env params urls i st).1.tempFiles = st.tempFiles ∧
      (mainLoopSeq cfg env params urls i st).1.tempsCreated = st.tempsCreated ∧
      (mainLoopSeq cfg env params urls i st).1.sleeps = st.sleeps ∧
      (mainLoopSeq cfg env params urls i st).1.links = List.foldl List.erase st.links urls ∧
      (mainLoopSeq cfg env params urls i st).1.completedUrls = st.completedUrls ++ urls := by
  intro urls
  induction urls with
  | nil =>
    intro i st _ _ _ _
    simp [mainLoopSeq]
  | cons u rest ih =>
    intro i st hnd hmem hname hfs
    have hu_links : u ∈ st.links := hmem u (by simp)
    have hfinal : finalPathOf cfg env (params i).tick u ∈ st.fs := by
      rw [finalPathOf_tick_eq cfg env u (params i).tick 0 (hname u (by simp))]
      exact hfs u (by simp)
    have hexec := exec_skip cfg env (params i) st u (habort i) hu_links hfinal
    have hstep : mainLoopSeq cfg env params (u :: rest) i st
        = mainLoopSeq cfg env params rest (i + 1)
            (updateUrlFile { st with completedUrls := st.completedUrls ++ [u],
                                     links := st.links.erase u }) := by
      simp only [mainLoopSeq, hexec]
    have hunotrest : u ∉ rest := (List.nodup_cons.mp hnd).1
    have hrest :
        (∀ v ∈ rest, v ∈ (updateUrlFile { st with completedUrls := st.completedUrls ++ [u],
                                                  links := st.links.erase u }).links) := by
      intro v hv
      have hvne : v ≠ u := fun hvu => hunotrest (hvu ▸ hv)
      simp only [updateUrlFile]
      exact (List.mem_erase_of_ne hvne).mpr (hmem v (List.mem_cons_of_mem u hv))
    have ihh := ih (i + 1)
      (updateUrlFile { st with completedUrls := st.completedUrls ++ [u],
                               links := st.links.erase u })
      (List.nodup_cons.mp hnd).2 hrest
      (fun v hv => hname v (List.mem_cons_of_mem u hv))
      (fun v hv => by
        simp only [updateUrlFile]
        exact hfs v (List.mem_cons_of_mem u hv))
    rw [hstep]
    obtain ⟨c1, c2, c3, c4, c5, c6, c7, c8⟩ := ihh
    refine ⟨c1, ?_, ?_, ?_, ?_, ?_, ?_, ?_⟩
    · rw [c2]; simp [updateUrlFile]
    · rw [c3]; simp [updateUrlFile]
    · rw [c4]; simp [updateUrlFile]
    · rw [c5]; simp [updateUrlFile]
    · rw [c6]; simp [updateUrlFile]
    · rw [c7]
      simp only [updateUrlFile, List.foldl_cons]
    · rw [c8]
      simp [updateUrlFile]

/-- C2 counterexample: for a url whose derived file name is empty (path
ends in a slash), the fallback name embeds a fresh time_ns reading, so a
second run over the unchanged identifier list and destination computes a
different final path, misses the already-exists check and performs a
network fetch: the second run is not fetch-free. -/
theorem skip_idempotence_counterexample :
    (runOnce cfg0 env0 paramsOk (initState ("http://h/") [])).2 = none ∧
    (runOnce cfg0 env0 paramsOk (initState ("http://h/") [])).1.fs
      = [("/out/unnamed_h_1")] ∧
    (runOnce cfg0 env0 paramsOkLater
        (initState ("http://h/")
          (runOnce cfg0 env0 paramsOk (initState ("http://h/") [])).1.fs)).1.fetches
      = [("http://h/")] := by
  decide

/-- C2 amended: an identifier whose computed final path already exists is
skipped without any network fetch, temp-file creation or registration, and
is retired from the queue; consequently a run in which every pending
identifier has a non-empty derived file name and an already-existing final
path performs zero network fetches, creates no files, and drains the queue
(identifiers with an empty derived name synthesize a fresh
timestamp-based fallback name each run and are fetched again). -/
theorem skip_idempotence_amended (cfg : Config) (env : Env)
    (params : Nat → TaskParams) (st : DlState)
    (habort : ∀ j, (params j).abortSig 0 = false)
    (hnd : st.links.Nodup)
    (hname : ∀ u ∈ st.links, derivedSegment env u ≠ "")
    (hfs : ∀ u ∈ st.links, finalPathOf cfg env 0 u ∈ st.fs) :
    (runOnce cfg env params st).2 = none ∧
    (runOnce cfg env params st).1.fetches = st.fetches ∧
    (runOnce cfg env params st).1.fs = st.fs ∧
    (runOnce cfg env params st).1.tempFiles = st.tempFiles ∧
    (runOnce cfg env params st).1.tempsCreated = st.tempsCreated ∧
    (runOnce cfg env params st).1.links = [] ∧
    (runOnce cfg env params st).1.completedUrls = st.completedUrls ++ st.links := by
  have h := mainLoop_skip_all cfg env params habort st.links 0 st hnd
    (fun u hu => hu) hname hfs
  obtain ⟨c1, c2, c3, c4, c5, _, c7, c8⟩ := h
  refine ⟨c1, c2, c3, c4, c5, ?_, c8⟩
  show (mainLoopSeq cfg env params st.links 0 st).1.links = []
  rw [c7, foldl_erase_self st.links hnd]

/-- C2 amended witness: a concrete second run over two already-downloaded
files performs no fetch, creates nothing, and drains the queue. -/
theorem skip_idempotence_amended_witness :
    (runOnce cfg0 env0 paramsOk
        (initState ("http://h/a.txt\nhttp://h/b.txt")
          [("/out/a.txt"), ("/out/b.txt")])).2 = none ∧
    (runOnce cfg0 env0 paramsOk
        (initState ("http://h/a.txt\nhttp://h/b.txt")
          [("/out/a.txt"), ("/out/b.txt")])).1.fetches
      = (initState ("http://h/a.txt\nhttp://h/b.txt")
          [("/out/a.txt"), ("/out/b.txt")]).fetches ∧
    (runOnce cfg0 env0 paramsOk
        (initState ("http://h/a.txt\nhttp://h/b.txt")
          [("/out/a.txt"), ("/out/b.txt")])).1.fs
      = (initState ("http://h/a.txt\nhttp://h/b.txt")
          [("/out/a.txt"), ("/out/b.txt")]).fs ∧
    (runOnce cfg0 env0 paramsOk
        (initState ("http://h/a.txt\nhttp://h/b.txt")
          [("/out/a.txt"), ("/out/b.txt")])).1.tempFiles
      = (initState ("http://h/a.txt\nhttp://h/b.txt")
          [("/out/a.txt"), ("/out/b.txt")]).tempFiles ∧
    (runOnce cfg0 env0 paramsOk
        (initState ("http://h/a.txt\nhttp://h/b.txt")
          [("/out/a.txt"), ("/out/b.txt")])).1.tempsCreated
      = (initState ("http://h/a.txt\nhttp://h/b.txt")
          [("/out/a.txt"), ("/out/b.txt")]).tempsCreated ∧
    (runOnce cfg0 env0 paramsOk
        (initState ("http://h/a.txt\nhttp://h/b.txt")
          [("/out/a.txt"), ("/out/b.txt")])).1.links = [] ∧
    (runOnce cfg0 env0 paramsOk
        (initState ("http://h/a.txt\nhttp://h/b.txt")
          [("/out/a.txt"), ("/out/b.txt")])).1.completedUrls
      = (initState ("http://h/a.txt\nhttp://h/b.txt")
          [("/out/a.txt"), ("/out/b.txt")]).completedUrls
          ++ (initState ("http://h/a.txt\nhttp://h/b.txt")
              [("/out/a.txt"), ("/out/b.txt")]).links :=
  skip_idempotence_amended cfg0 env0 paramsOk
    (initState ("http://h/a.txt\nhttp://h/b.txt") [("/out/a.txt"), ("/out/b.txt")])
    (fun _ => rfl) (by decide) (by decide) (by decide)
